import Mathlib

/-!
Verification of the word-to-pdf-converter backend core
(`src/backend/src/controllers/convertController.js`,
`src/backend/src/middleware/validationMiddleware.js` and the file
utilities appended to it) against its natural-language specification.

Strings from the JavaScript side are modelled as `List Char` (JS strings
indexed by code unit position; `substring`, `split`, `trim` become list
operations).  Byte buffers are `List Nat`.  The layout constants are all
exact multiples of 0.01 pt, so the floating-point coordinates are
modelled exactly in integer hundredths of a point (841.89 pt = 84189):
every coordinate produced by the layout loop is of the form
`84189 - 5000 - 1400·k` with `k ≤ 40`, so each comparison in the code is
decided with a slack of thousands of centipoints and double rounding can
never change a branch.
-/

namespace WordToPdf

/-! ### Layout constants (`createPdfFromText`, lines 252–257), in
hundredths of a point (595.28 pt, 841.89 pt, 50 pt, 14 pt, 12 pt) -/

def linesPerPage : Nat := 40
def pageWidth : Int := 59528
def pageHeight : Int := 84189
def margin : Int := 5000
def lineHeight : Int := 1400
def fontSize : Int := 1200
def maxCharsPerLine : Nat := 80

/-! ### Character-count line wrapping (lines 277–281)

`for (let i = 0; i < line.length; i += maxCharsPerLine)
   wrappedLines.push(line.substring(i, i + maxCharsPerLine));`

Modelled with explicit fuel so that the definition is structurally
recursive (each chunk consumes at least one character, so `l.length` is
enough fuel). -/

def chunksOfAux : Nat → List Char → List (List Char)
  | 0, _ => []
  | _ + 1, [] => []
  | n + 1, c :: cs => (c :: cs).take maxCharsPerLine ::
      chunksOfAux n ((c :: cs).drop maxCharsPerLine)

def chunksOf (l : List Char) : List (List Char) :=
  chunksOfAux l.length l

/-- Lines 276–312: a line longer than the threshold is split into fixed
80-character chunks; otherwise it is kept whole. -/
def wrapLine (line : List Char) : List (List Char) :=
  if line.length > maxCharsPerLine then chunksOf line else [line]

theorem chunksOfAux_nil (fuel : Nat) : chunksOfAux fuel [] = [] := by
  cases fuel <;> rfl

theorem chunksOfAux_fuel_eq (f₁ : Nat) : ∀ (f₂ : Nat) (l : List Char),
    l.length ≤ f₁ → l.length ≤ f₂ → chunksOfAux f₁ l = chunksOfAux f₂ l := by
  induction f₁ with
  | zero =>
    intro f₂ l h₁ _
    have : l = [] := List.length_eq_zero.mp (Nat.le_zero.mp h₁)
    subst this
    rw [chunksOfAux_nil, chunksOfAux_nil]
  | succ n ih =>
    intro f₂ l h₁ h₂
    cases l with
    | nil => rw [chunksOfAux_nil, chunksOfAux_nil]
    | cons c cs =>
      cases f₂ with
      | zero => simp at h₂
      | succ m =>
        show _ :: chunksOfAux n _ = _ :: chunksOfAux m _
        congr 1
        apply ih
        · simp only [List.length_drop, List.length_cons, maxCharsPerLine]
          simp only [List.length_cons] at h₁
          omega
        · simp only [List.length_drop, List.length_cons, maxCharsPerLine]
          simp only [List.length_cons] at h₂
          omega

theorem chunksOf_cons (c : Char) (cs : List Char) :
    chunksOf (c :: cs) =
      (c :: cs).take maxCharsPerLine :: chunksOf ((c :: cs).drop maxCharsPerLine) := by
  show chunksOfAux (cs.length + 1) (c :: cs) = _
  show (c :: cs).take maxCharsPerLine ::
      chunksOfAux cs.length ((c :: cs).drop maxCharsPerLine) = _
  congr 1
  apply chunksOfAux_fuel_eq
  · simp only [List.length_drop, List.length_cons, maxCharsPerLine]
    omega
  · exact Nat.le_refl _

/-- Chunk count: a line of length `80·k + r` with `1 ≤ r ≤ 80` yields
`k + 1` chunks. -/
theorem chunksOfAux_length (fuel : Nat) : ∀ (l : List Char) (k r : Nat),
    1 ≤ r → r ≤ maxCharsPerLine → l.length = maxCharsPerLine * k + r →
    l.length ≤ fuel → (chunksOfAux fuel l).length = k + 1 := by
  induction fuel with
  | zero =>
    intro l k r h1 _ hlen hf
    have hl : l = [] := List.length_eq_zero.mp (Nat.le_zero.mp hf)
    subst hl
    simp only [List.length_nil, maxCharsPerLine] at hlen
    simp only [chunksOfAux, List.length_nil]
    omega
  | succ n ih =>
    intro l k r h1 h80 hlen hf
    cases l with
    | nil =>
      simp only [List.length_nil, maxCharsPerLine] at hlen
      omega
    | cons c cs =>
      show ((c :: cs).take maxCharsPerLine ::
        chunksOfAux n ((c :: cs).drop maxCharsPerLine)).length = k + 1
      simp only [List.length_cons]
      cases k with
      | zero =>
        have hdrop : (c :: cs).drop maxCharsPerLine = [] := by
          apply List.drop_eq_nil_of_le
          simp only [List.length_cons, maxCharsPerLine]
          simp only [List.length_cons, maxCharsPerLine] at hlen
          simp only [maxCharsPerLine] at h80
          omega
        rw [hdrop, chunksOfAux_nil]
        rfl
      | succ k' =>
        have hdl : ((c :: cs).drop maxCharsPerLine).length
            = maxCharsPerLine * k' + r := by
          simp only [List.length_drop, List.length_cons, maxCharsPerLine]
          simp only [List.length_cons, maxCharsPerLine] at hlen
          omega
        have hdf : ((c :: cs).drop maxCharsPerLine).length ≤ n := by
          simp only [List.length_drop, List.length_cons, maxCharsPerLine]
          simp only [List.length_cons] at hf
          omega
        rw [ih _ k' r h1 h80 hdl hdf]

theorem chunksOf_length (l : List Char) (k r : Nat)
    (h1 : 1 ≤ r) (h80 : r ≤ maxCharsPerLine)
    (hlen : l.length = maxCharsPerLine * k + r) :
    (chunksOf l).length = k + 1 :=
  chunksOfAux_length l.length l k r h1 h80 hlen (Nat.le_refl _)

/-- The chunks concatenate back to the original line: splitting happens at
fixed boundaries without dropping or duplicating characters. -/
theorem chunksOfAux_flatten (fuel : Nat) : ∀ l : List Char,
    l.length ≤ fuel → (chunksOfAux fuel l).flatten = l := by
  induction fuel with
  | zero =>
    intro l h
    have : l = [] := List.length_eq_zero.mp (Nat.le_zero.mp h)
    subst this; rfl
  | succ n ih =>
    intro l h
    cases l with
    | nil => rfl
    | cons c cs =>
      show ((c :: cs).take maxCharsPerLine ::
        chunksOfAux n ((c :: cs).drop maxCharsPerLine)).flatten = c :: cs
      simp only [List.flatten_cons]
      rw [ih]
      · exact List.take_append_drop _ _
      · simp only [List.length_drop, List.length_cons, maxCharsPerLine]
        simp only [List.length_cons] at h
        omega

theorem chunksOf_flatten (l : List Char) : (chunksOf l).flatten = l :=
  chunksOfAux_flatten l.length l (Nat.le_refl _)

/-- Every chunk except the last has exactly the threshold length. -/
theorem chunksOfAux_dropLast (fuel : Nat) : ∀ l : List Char,
    l.length ≤ fuel →
    ∀ c ∈ (chunksOfAux fuel l).dropLast, c.length = maxCharsPerLine := by
  induction fuel with
  | zero =>
    intro l h c hc
    have : l = [] := List.length_eq_zero.mp (Nat.le_zero.mp h)
    subst this; simp [chunksOfAux] at hc
  | succ n ih =>
    intro l h c hc
    cases l with
    | nil => simp [chunksOfAux] at hc
    | cons a as =>
      have hstep : chunksOfAux (n + 1) (a :: as) =
          (a :: as).take maxCharsPerLine ::
          chunksOfAux n ((a :: as).drop maxCharsPerLine) := rfl
      rw [hstep] at hc
      by_cases hrest : chunksOfAux n ((a :: as).drop maxCharsPerLine) = []
      · rw [hrest] at hc
        simp at hc
      · rw [List.dropLast_cons_of_ne_nil hrest] at hc
        have hdropnil : (a :: as).drop maxCharsPerLine ≠ [] := by
          intro hh
          rw [hh, chunksOfAux_nil] at hrest
          exact hrest rfl
        have hlong : maxCharsPerLine < (a :: as).length := by
          by_contra hle
          push_neg at hle
          exact hdropnil (List.drop_eq_nil_of_le hle)
        cases hc with
        | head =>
          simp only [List.length_take]
          simp only [maxCharsPerLine] at hlong ⊢
          omega
        | tail _ hc' =>
          apply ih _ _ _ hc'
          simp only [List.length_drop, List.length_cons, maxCharsPerLine]
          simp only [List.length_cons] at h
          omega

theorem chunksOf_dropLast (l : List Char) :
    ∀ c ∈ (chunksOf l).dropLast, c.length = maxCharsPerLine :=
  chunksOfAux_dropLast l.length l (Nat.le_refl _)

/-! ### Pagination layout engine (`createPdfFromText`, lines 247–316)

The loop state tracks the current page number (pages added so far, the
first page counts), the vertical cursor `yPosition`, the per-page
`lineCount` and every `drawText` call issued so far. -/

/-- One `page.drawText` call: which page, at which coordinates, which
text. -/
structure Placement where
  page : Nat
  x : Int
  y : Int
  text : List Char
deriving DecidableEq

structure LState where
  numPages : Nat
  y : Int
  lineCount : Nat
  placed : List Placement
deriving DecidableEq

/-- `lineCount >= linesPerPage || yPosition < margin + lineHeight`
(lines 269 and 284). -/
def pageBreakNeeded (st : LState) : Prop :=
  st.lineCount ≥ linesPerPage ∨ st.y < margin + lineHeight

instance (st : LState) : Decidable (pageBreakNeeded st) := by
  unfold pageBreakNeeded; infer_instance

/-- `pdfDoc.addPage(...)`, reset cursor and count (lines 270–272). -/
def freshPage (st : LState) : LState :=
  { numPages := st.numPages + 1
    y := pageHeight - margin
    lineCount := 0
    placed := st.placed }

/-- `currentPage.drawText(...)`, then `yPosition -= lineHeight;
lineCount++` (lines 290–299 and 302–311). -/
def drawLine (st : LState) (l : List Char) : LState :=
  { numPages := st.numPages
    y := st.y - lineHeight
    lineCount := st.lineCount + 1
    placed := st.placed ++ [⟨st.numPages, margin, st.y, l⟩] }

/-- Inner loop body for a wrapped chunk (lines 283–300): re-check the
page-break condition, then draw. -/
def placeChunk (st : LState) (chunk : List Char) : LState :=
  let st' := if pageBreakNeeded st then freshPage st else st
  drawLine st' chunk

/-- Outer loop body for one input line (lines 267–313): check the
page-break condition, then either split a long line into chunks and place
each, or draw the line whole. -/
def processLine (st : LState) (line : List Char) : LState :=
  let st' := if pageBreakNeeded st then freshPage st else st
  if line.length > maxCharsPerLine then
    (chunksOf line).foldl placeChunk st'
  else
    drawLine st' line

/-- Initial state: one page already added, cursor at
`pageHeight - margin` (lines 259–261). -/
def initialLState : LState :=
  { numPages := 1, y := pageHeight - margin, lineCount := 0, placed := [] }

structure PdfLayout where
  numPages : Nat
  placed : List Placement
deriving DecidableEq

def LState.toLayout (st : LState) : PdfLayout :=
  { numPages := st.numPages, placed := st.placed }

def createPdfFromLines (lines : List (List Char)) : PdfLayout :=
  (lines.foldl processLine initialLState).toLayout

/-- `const lines = text.split('\n')` (line 251) followed by the layout
loop. -/
def createPdfFromText (text : List Char) : PdfLayout :=
  createPdfFromLines (text.splitOn '\n')

/-! ### Layout engine with the vertical-cursor check removed

Used to state that the `yPosition < margin + lineHeight` disjunct is never
the trigger of a page break: the engine behaves identically when only the
`lineCount >= linesPerPage` check remains. -/

def placeChunkCountOnly (st : LState) (chunk : List Char) : LState :=
  let st' := if st.lineCount ≥ linesPerPage then freshPage st else st
  drawLine st' chunk

def processLineCountOnly (st : LState) (line : List Char) : LState :=
  let st' := if st.lineCount ≥ linesPerPage then freshPage st else st
  if line.length > maxCharsPerLine then
    (chunksOf line).foldl placeChunkCountOnly st'
  else
    drawLine st' line

def createPdfFromLinesCountOnly (lines : List (List Char)) : PdfLayout :=
  (lines.foldl processLineCountOnly initialLState).toLayout

def createPdfFromTextCountOnly (text : List Char) : PdfLayout :=
  createPdfFromLinesCountOnly (text.splitOn '\n')

/-! ### Invariant of the layout loop -/

/-- Every drawn line sits at or above `margin + lineHeight`. -/
def PlacedOk (ps : List Placement) : Prop :=
  ∀ p ∈ ps, margin + lineHeight ≤ p.y

/-- State invariant between loop iterations: the per-page line count never
exceeds the maximum, and the cursor is exactly `pageHeight - margin`
lowered by `lineHeight` per line already on the page. -/
def LayoutInv (st : LState) : Prop :=
  st.lineCount ≤ linesPerPage ∧
  st.y = pageHeight - margin - lineHeight * st.lineCount ∧
  PlacedOk st.placed

/-- State right after the page-break check, just before a draw. -/
def MidInv (st : LState) : Prop :=
  st.lineCount + 1 ≤ linesPerPage ∧
  st.y = pageHeight - margin - lineHeight * st.lineCount ∧
  PlacedOk st.placed

theorem midInv_layoutInv (st : LState) (h : MidInv st) : LayoutInv st :=
  ⟨Nat.le_of_succ_le h.1, h.2.1, h.2.2⟩

theorem ycursor_ge (c : Nat) (hc : c ≤ linesPerPage) :
    margin + lineHeight ≤ pageHeight - margin - lineHeight * c := by
  have hcq : (c : Int) ≤ 40 := by
    have h40 : c ≤ 40 := by simpa [linesPerPage] using hc
    exact_mod_cast h40
  simp only [pageHeight, margin, lineHeight]
  omega

/-- Under the invariant the vertical-cursor disjunct of the page-break
condition is always false: the condition is equivalent to the line-count
check alone. -/
theorem pageBreak_iff_count (st : LState) (h : LayoutInv st) :
    pageBreakNeeded st ↔ st.lineCount ≥ linesPerPage := by
  obtain ⟨hc, hy, -⟩ := h
  unfold pageBreakNeeded
  constructor
  · rintro (h1 | h2)
    · exact h1
    · exfalso
      have hge := ycursor_ge st.lineCount hc
      rw [← hy] at hge
      linarith
  · exact Or.inl

theorem check_eq (st : LState) (h : LayoutInv st) :
    (if pageBreakNeeded st then freshPage st else st) =
    (if st.lineCount ≥ linesPerPage then freshPage st else st) := by
  by_cases hb : st.lineCount ≥ linesPerPage
  · rw [if_pos hb, if_pos ((pageBreak_iff_count st h).mpr hb)]
  · rw [if_neg hb, if_neg (fun hh => hb ((pageBreak_iff_count st h).mp hh))]

theorem check_midInv (st : LState) (h : LayoutInv st) :
    MidInv (if pageBreakNeeded st then freshPage st else st) := by
  by_cases hb : pageBreakNeeded st
  · rw [if_pos hb]
    refine ⟨by simp [freshPage, linesPerPage], ?_, h.2.2⟩
    simp [freshPage]
  · rw [if_neg hb]
    have hc : st.lineCount < linesPerPage := by
      rcases Nat.lt_or_ge st.lineCount linesPerPage with hlt | hge
      · exact hlt
      · exact absurd ((pageBreak_iff_count st h).mpr hge) hb
    exact ⟨hc, h.2.1, h.2.2⟩

theorem noBreak_midInv (st : LState) (h : LayoutInv st)
    (hb : ¬ pageBreakNeeded st) : MidInv st := by
  have := check_midInv st h
  rwa [if_neg hb] at this

theorem drawLine_inv (st : LState) (l : List Char) (h : MidInv st) :
    LayoutInv (drawLine st l) := by
  obtain ⟨hc, hy, hp⟩ := h
  refine ⟨hc, ?_, ?_⟩
  · simp only [drawLine, hy]
    push_cast
    ring
  · intro p hp'
    simp only [drawLine, List.mem_append, List.mem_singleton] at hp'
    rcases hp' with hold | hnew
    · exact hp p hold
    · subst hnew
      rw [hy]
      exact ycursor_ge st.lineCount (Nat.le_of_succ_le hc)

theorem placeChunk_eq (st : LState) (c : List Char) (h : LayoutInv st) :
    placeChunk st c = placeChunkCountOnly st c := by
  unfold placeChunk placeChunkCountOnly
  rw [check_eq st h]

theorem placeChunk_inv (st : LState) (c : List Char) (h : LayoutInv st) :
    LayoutInv (placeChunk st c) :=
  drawLine_inv _ _ (check_midInv st h)

theorem foldChunks_eq_inv : ∀ (chunks : List (List Char)) (st : LState),
    LayoutInv st →
    chunks.foldl placeChunk st = chunks.foldl placeChunkCountOnly st ∧
    LayoutInv (chunks.foldl placeChunk st) := by
  intro chunks
  induction chunks with
  | nil => intro st h; exact ⟨rfl, h⟩
  | cons c cs ih =>
    intro st h
    have hinv' := placeChunk_inv st c h
    have hrec := ih (placeChunk st c) hinv'
    refine ⟨?_, by simpa using hrec.2⟩
    simp only [List.foldl_cons]
    rw [← placeChunk_eq st c h]
    exact hrec.1

theorem processLine_eq_inv (st : LState) (l : List Char) (h : LayoutInv st) :
    processLine st l = processLineCountOnly st l ∧
    LayoutInv (processLine st l) := by
  have hmid := check_midInv st h
  have hinv' := midInv_layoutInv _ hmid
  unfold processLine processLineCountOnly
  rw [← check_eq st h]
  by_cases hl : l.length > maxCharsPerLine
  · simp only [if_pos hl]
    exact foldChunks_eq_inv _ _ hinv'
  · simp only [if_neg hl]
    exact ⟨by trivial, drawLine_inv _ _ hmid⟩

theorem foldLines_eq_inv : ∀ (ls : List (List Char)) (st : LState),
    LayoutInv st →
    ls.foldl processLine st = ls.foldl processLineCountOnly st ∧
    LayoutInv (ls.foldl processLine st) := by
  intro ls
  induction ls with
  | nil => intro st h; exact ⟨rfl, h⟩
  | cons l ls ih =>
    intro st h
    have hstep := processLine_eq_inv st l h
    have hrec := ih (processLine st l) hstep.2
    refine ⟨?_, by simpa using hrec.2⟩
    simp only [List.foldl_cons]
    rw [← hstep.1]
    exact hrec.1

theorem initial_inv : LayoutInv initialLState := by
  refine ⟨by simp [initialLState, linesPerPage], ?_, ?_⟩
  · simp [initialLState]
  · intro p hp
    simp [initialLState] at hp

theorem check_placed (st : LState) :
    (if pageBreakNeeded st then freshPage st else st).placed = st.placed := by
  by_cases hb : pageBreakNeeded st
  · rw [if_pos hb]; rfl
  · rw [if_neg hb]

theorem placeChunk_texts (st : LState) (c : List Char) :
    (placeChunk st c).placed.map Placement.text
      = st.placed.map Placement.text ++ [c] := by
  simp only [placeChunk, drawLine, List.map_append, check_placed,
    List.map_cons, List.map_nil]

theorem foldChunks_texts : ∀ (chunks : List (List Char)) (st : LState),
    ((chunks.foldl placeChunk st).placed).map Placement.text
      = st.placed.map Placement.text ++ chunks := by
  intro chunks
  induction chunks with
  | nil => intro st; simp
  | cons c cs ih =>
    intro st
    simp only [List.foldl_cons]
    rw [ih, placeChunk_texts]
    simp

theorem foldShort_numPages : ∀ (ls : List (List Char)) (st : LState),
    LayoutInv st → (∀ l ∈ ls, l.length ≤ maxCharsPerLine) →
    st.lineCount + ls.length ≤ linesPerPage →
    (ls.foldl processLine st).numPages = st.numPages := by
  intro ls
  induction ls with
  | nil => intro st _ _ _; rfl
  | cons l ls ih =>
    intro st h hshort hcount
    have hnb : ¬ pageBreakNeeded st := by
      rw [pageBreak_iff_count st h]
      simp only [List.length_cons, linesPerPage] at hcount ⊢
      omega
    have hls : ¬ l.length > maxCharsPerLine := by
      have := hshort l (List.mem_cons_self l ls)
      omega
    have hpl : processLine st l = drawLine st l := by
      unfold processLine
      rw [if_neg hnb, if_neg hls]
    have hshort' : ∀ x ∈ ls, x.length ≤ maxCharsPerLine :=
      fun x hx => hshort x (List.mem_cons_of_mem _ hx)
    have hcount' : (drawLine st l).lineCount + ls.length ≤ linesPerPage := by
      simp only [drawLine, List.length_cons] at hcount ⊢
      omega
    have hinv' : LayoutInv (drawLine st l) :=
      drawLine_inv st l (noBreak_midInv st h hnb)
    simp only [List.foldl_cons, hpl]
    rw [ih (drawLine st l) hinv' hshort' hcount']
    simp [drawLine]

/-- C6: a single input line of exactly `k × 80 + 1` characters (`k ≥ 1`)
produces exactly `k + 1` placed segments, cut at fixed 80-character
boundaries (the segments concatenate back to the line and all but the
last have length exactly 80); a line of exactly 80 characters is placed
unsplit as one segment. -/
theorem claim_c6_fixed_width_wrap (k : Nat) (hk : 1 ≤ k) (line : List Char)
    (hlen : line.length = maxCharsPerLine * k + 1) :
    ((createPdfFromLines [line]).placed.length = k + 1 ∧
     ((createPdfFromLines [line]).placed.map Placement.text).flatten = line ∧
     (∀ seg ∈ ((createPdfFromLines [line]).placed.map Placement.text).dropLast,
        seg.length = maxCharsPerLine)) ∧
    (∀ l₂ : List Char, l₂.length = maxCharsPerLine →
      (createPdfFromLines [l₂]).placed.map Placement.text = [l₂]) := by
  constructor
  · have hgt : line.length > maxCharsPerLine := by
      simp only [maxCharsPerLine] at hlen ⊢
      omega
    have htexts : (createPdfFromLines [line]).placed.map Placement.text
        = chunksOf line := by
      unfold createPdfFromLines
      simp only [List.foldl_cons, List.foldl_nil]
      unfold processLine
      rw [if_neg (by decide : ¬ pageBreakNeeded initialLState), if_pos hgt]
      show ((chunksOf line).foldl placeChunk initialLState).placed.map
        Placement.text = chunksOf line
      rw [foldChunks_texts]
      rfl
    refine ⟨?_, ?_, ?_⟩
    · have hlm : (createPdfFromLines [line]).placed.length
          = ((createPdfFromLines [line]).placed.map Placement.text).length :=
        (List.length_map _ _).symm
      rw [hlm, htexts]
      exact chunksOf_length line k 1 (Nat.le_refl 1)
        (by simp [maxCharsPerLine]) hlen
    · rw [htexts]
      exact chunksOf_flatten line
    · rw [htexts]
      exact chunksOf_dropLast line
  · intro l₂ h₂
    have hng : ¬ l₂.length > maxCharsPerLine := by
      rw [h₂]
      exact lt_irrefl _
    unfold createPdfFromLines
    simp only [List.foldl_cons, List.foldl_nil]
    unfold processLine
    rw [if_neg (by decide : ¬ pageBreakNeeded initialLState), if_neg hng]
    simp [drawLine, initialLState, LState.toLayout]

theorem claim_c6_fixed_width_wrap_witness :
    1 ≤ 1 ∧ (List.replicate 81 'a').length = maxCharsPerLine * 1 + 1 ∧
    (createPdfFromLines [List.replicate 81 'a']).placed.length = 1 + 1 :=
  ⟨Nat.le_refl 1, by decide,
    (claim_c6_fixed_width_wrap 1 (Nat.le_refl 1) (List.replicate 81 'a')
      (by decide)).1.1⟩

/-- C7: extracted text of exactly `N` lines with `N ≤ 40` and no line
longer than 80 characters lays out on exactly one page. -/
theorem claim_c7_single_page (text : List Char) (N : Nat)
    (hN : (text.splitOn '\n').length = N) (hN40 : N ≤ linesPerPage)
    (hshort : ∀ l ∈ text.splitOn '\n', l.length ≤ maxCharsPerLine) :
    (createPdfFromText text).numPages = 1 := by
  have hcount : initialLState.lineCount + (text.splitOn '\n').length
      ≤ linesPerPage := by
    simpa [initialLState, hN] using hN40
  have h := foldShort_numPages (text.splitOn '\n') initialLState
    initial_inv hshort hcount
  unfold createPdfFromText createPdfFromLines LState.toLayout
  simpa [initialLState] using h

theorem claim_c7_single_page_witness :
    ("a\nb".data.splitOn '\n').length = 2 ∧ 2 ≤ linesPerPage ∧
    (∀ l ∈ "a\nb".data.splitOn '\n', l.length ≤ maxCharsPerLine) ∧
    (createPdfFromText "a\nb".data).numPages = 1 :=
  ⟨by decide, by decide, by decide,
    claim_c7_single_page "a\nb".data 2 (by decide) (by decide) (by decide)⟩

/-- C10: under the fixed constants, every drawn line sits at a vertical
position of at least `margin + lineHeight`, so the vertical-cursor
disjunct of the page-break condition never fires: the engine produces
exactly the same output when only the per-page line-count check remains. -/
theorem claim_c10_ycheck_never_triggers (text : List Char) :
    createPdfFromText text = createPdfFromTextCountOnly text ∧
    ∀ p ∈ (createPdfFromText text).placed, margin + lineHeight ≤ p.y := by
  have h := foldLines_eq_inv (text.splitOn '\n') initialLState initial_inv
  constructor
  · unfold createPdfFromText createPdfFromLines
      createPdfFromTextCountOnly createPdfFromLinesCountOnly
    rw [h.1]
  · intro p hp
    apply h.2.2.2
    simpa [createPdfFromText, createPdfFromLines, LState.toLayout] using hp

theorem claim_c10_ycheck_never_triggers_witness :
    createPdfFromText "a".data = createPdfFromTextCountOnly "a".data ∧
    margin + lineHeight ≤
      (Placement.mk 1 margin (pageHeight - margin) "a".data).y :=
  ⟨(claim_c10_ycheck_never_triggers "a".data).1,
    (claim_c10_ycheck_never_triggers "a".data).2 _ (by decide)⟩

/-! ### Filename handling (`path.extname`, `path.basename`,
`fileUtils.generateUniqueFilename`, middleware file lines 267–277) -/

def lastDotIdx : List Char → Option Nat
  | [] => none
  | c :: cs =>
    match lastDotIdx cs with
    | some i => some (i + 1)
    | none => if c = '.' then some 0 else none

/-- `path.extname` on a bare filename (the uploads carry no directory
separators): the suffix starting at the last `'.'`, empty when there is
no dot or when the only dot is the leading character. -/
def extname (l : List Char) : List Char :=
  match lastDotIdx l with
  | none => []
  | some 0 => []
  | some i => l.drop i

/-- `path.extname(name).toLowerCase()` (controller line 138, middleware
line 36). -/
def extLower (name : List Char) : List Char :=
  (extname name).map Char.toLower

/-- `path.basename(originalName, path.extname(originalName))`: since the
second argument is exactly the extension of the first, this strips the
extension suffix. -/
def baseNameNoExt (l : List Char) : List Char :=
  l.take (l.length - (extname l).length)

/-- Characters kept by `baseName.replace(/[^a-zA-Z0-9\-_]/g, '_')`. -/
def isFilenameSafe (c : Char) : Bool :=
  c.isAlphanum || c == '-' || c == '_'

def cleanBaseName (l : List Char) : List Char :=
  l.map (fun c => if isFilenameSafe c then c else '_')

def natDigits (n : Nat) : List Char := (Nat.repr n).data

/-- `fileUtils.generateUniqueFilename`:
`${cleanBaseName}_${timestamp}_${randomSuffix}${extension}`, where the
extension is the provided one (`newExtension || path.extname(...)`). -/
def generateUniqueFilename (originalName : List Char)
    (newExtension : Option (List Char)) (timestamp randomSuffix : Nat) :
    List Char :=
  let extension := match newExtension with
    | some e => e
    | none => extname originalName
  cleanBaseName (baseNameNoExt originalName) ++ ['_'] ++ natDigits timestamp
    ++ ['_'] ++ natDigits randomSuffix ++ extension

/-! ### Upload validation (`validationMiddleware.validateFile`,
middleware file lines 21–115).  `content` models the stored bytes, so
`stats.size` is `content.length`; `size` is the size Multer reports. -/

structure UploadedFile where
  originalname : List Char
  mimetype : List Char
  size : Nat
  content : List Nat
  existsOnDisk : Bool
deriving DecidableEq

inductive ValidationOutcome
  | rejected (status : Nat) (errorCode : List Char)
  | passed
deriving DecidableEq

def allowedExtensions : List (List Char) := [".doc".data, ".docx".data]

def allowedMimeTypes : List (List Char) :=
  ["application/msword".data,
   "application/vnd.openxmlformats-officedocument.wordprocessingml.document".data]

def defaultMaxFileSize : Nat := 10 * 1024 * 1024

def validateFile (file? : Option UploadedFile) (maxSize : Nat) :
    ValidationOutcome :=
  match file? with
  | none => .rejected 400 "NO_FILE".data
  | some f =>
    if extLower f.originalname ∉ allowedExtensions then
      .rejected 400 "INVALID_FILE_TYPE".data
    else if f.mimetype ∉ allowedMimeTypes then
      .rejected 400 "INVALID_MIME_TYPE".data
    else if f.size > maxSize then
      .rejected 400 "FILE_TOO_LARGE".data
    else if f.existsOnDisk = false then
      .rejected 500 "FILE_NOT_FOUND".data
    else if f.content.length = 0 then
      .rejected 400 "EMPTY_FILE".data
    else
      .passed

/-! ### Stale-file sweep (`fileUtils.cleanupOldFiles`, middleware file
lines 301–323, scheduled at lines 342–345 with the default 24 h age) -/

structure FileEntry where
  name : List Char
  mtimeMs : Int
  content : List Nat
deriving DecidableEq

def cleanupOldFiles (nowMs : Int) (maxAgeHours : Nat)
    (dir : List FileEntry) : List FileEntry :=
  dir.filter (fun f =>
    ! decide (nowMs - f.mtimeMs > (maxAgeHours : Int) * 60 * 60 * 1000))

def sweepMaxAgeHours : Nat := 24

def runSweep (nowMs : Int) (dir : List FileEntry) : List FileEntry :=
  cleanupOldFiles nowMs sweepMaxAgeHours dir

/-! ### Structural signature check (`validateDocxFile`, controller
lines 24–41) -/

def zipSignatures : List (List Nat) :=
  [[0x50, 0x4B, 0x03, 0x04], [0x50, 0x4B, 0x05, 0x06], [0x50, 0x4B, 0x07, 0x08]]

/-- `buffer.slice(0, 4)` equal (as byte sequences) to one of the three
zip magic numbers. -/
def validateDocxFile (buffer : List Nat) : Bool :=
  zipSignatures.any (fun sig => buffer.take 4 == sig)

/-! ### Fallback notice generator (`createFallbackPdf`, controller
lines 47–103) -/

def fallbackLines (originalName conversionDate : List Char) :
    List (List Char) :=
  [ "Word to PDF Conversion Notice".data,
    [],
    "Original file: ".data ++ originalName,
    "Conversion date: ".data ++ conversionDate,
    [],
    "Note: The original Word document could not be fully processed.".data,
    "This may be due to:".data,
    "• File corruption or damage".data,
    "• Unsupported Word document format".data,
    "• Complex formatting that cannot be converted".data,
    [],
    "Please try:".data,
    "1. Opening the document in Microsoft Word".data,
    "2. Saving it as a new .docx file".data,
    "3. Converting the new file".data,
    [],
    "If the problem persists, please contact support.".data ]

/-- `index === 0 ? 16 : fontSize` in centipoints. -/
def fallbackFontSize (idx : Nat) : Int := if idx = 0 then 1600 else 1200

/-- Lines 81–96: single page, cursor starts at
`height - margin - 20` and drops by `textSize + 4` per line. -/
def fallbackPlace (y : Int) (idx : Nat) : List (List Char) → List Placement
  | [] => []
  | l :: rest =>
    ⟨1, margin, y, l⟩ ::
      fallbackPlace (y - (fallbackFontSize idx + 400)) (idx + 1) rest

def createFallbackPdf (originalName conversionDate : List Char) : PdfLayout :=
  { numPages := 1
    placed := fallbackPlace (pageHeight - margin - 2000) 0
      (fallbackLines originalName conversionDate) }

/-! ### Conversion orchestrator (`convertWordToPdf`, controller
lines 112–241) -/

inductive ExtractOutcome
  | extracted (text : List Char)
  | extractFailed
deriving DecidableEq

inductive PdfChoice
  | fallbackDoc
  | textDoc (text : List Char)
deriving DecidableEq

/-- The whitespace class of JS `String.prototype.trim`, restricted to the
code points relevant here. -/
def isJsWhitespace (c : Char) : Bool :=
  c == ' ' || c == '\t' || c == '\n' || c == '\r' ||
  c == Char.ofNat 11 || c == Char.ofNat 12 || c == Char.ofNat 160 ||
  c == Char.ofNat 0xFEFF

def jsTrim (l : List Char) : List Char :=
  ((l.dropWhile isJsWhitespace).reverse.dropWhile isJsWhitespace).reverse

/-- `!text || text.trim().length === 0` (lines 150 and 163). -/
def extractionUnusable (text : List Char) : Bool :=
  text.isEmpty || (jsTrim text).length == 0

/-- Lines 136–182: which document gets rendered.  A `.docx` whose
signature check fails goes to the fallback; an extraction failure or
unusable text goes to the fallback (for `.docx` via the outer `catch`,
for `.doc` via the inner one); any other extension raises
`Unsupported file format`, which the outer `catch` also absorbs into the
fallback path. -/
def choosePdf (ext : List Char) (sigOk : Bool) (extract : ExtractOutcome) :
    PdfChoice :=
  if ext = ".docx".data then
    if sigOk = false then .fallbackDoc
    else
      match extract with
      | .extractFailed => .fallbackDoc
      | .extracted t =>
        if extractionUnusable t then .fallbackDoc else .textDoc t
  else if ext = ".doc".data then
    match extract with
    | .extractFailed => .fallbackDoc
    | .extracted t =>
      if extractionUnusable t then .fallbackDoc else .textDoc t
  else .fallbackDoc

def renderPdf (choice : PdfChoice) (originalName conversionDate : List Char) :
    PdfLayout :=
  match choice with
  | .fallbackDoc => createFallbackPdf originalName conversionDate
  | .textDoc t => createPdfFromText t

/-- What the filesystem reports after `fs.writeFileSync`: whether the
artifact exists (`fs.existsSync`) and its `stats.size`. -/
structure FsObs where
  writtenExists : Bool
  writtenSize : Nat
deriving DecidableEq

inductive JobResult
  | delivered (pdf : PdfLayout) (filename : List Char)
      (contentType : List Char) (contentLength : Nat)
  | httpError (status : Nat) (message : List Char)
deriving DecidableEq

/-- The orchestrator.  `conversionDate` models
`new Date().toLocaleString()`; `timestamp` and `randomSuffix` feed the
unique output name; a missing artifact after the write raises
`PDF file was not generated successfully`, answered as a 500 by the outer
`catch`; otherwise the PDF is delivered with `Content-Type:
application/pdf` and `Content-Length: stats.size`. -/
def convertWordToPdf (file? : Option UploadedFile) (extract : ExtractOutcome)
    (conversionDate : List Char) (timestamp randomSuffix : Nat)
    (fsObs : FsObs) : JobResult :=
  match file? with
  | none =>
    .httpError 400 "No file uploaded. Please select a Word document.".data
  | some f =>
    let outputFileName :=
      generateUniqueFilename f.originalname (some ".pdf".data)
        timestamp randomSuffix
    let choice :=
      choosePdf (extLower f.originalname) (validateDocxFile f.content) extract
    let pdf := renderPdf choice f.originalname conversionDate
    if fsObs.writtenExists = false then
      .httpError 500 "PDF file was not generated successfully".data
    else
      .delivered pdf outputFileName "application/pdf".data fsObs.writtenSize

inductive PipelineResult
  | validationError (status : Nat) (errorCode : List Char)
  | conversion (r : JobResult)
deriving DecidableEq

/-- Route chain `validateFile → convertWordToPdf`: a rejection in the
validation middleware returns before the controller runs, so no
conversion is attempted. -/
def fullPipeline (file? : Option UploadedFile) (maxSize : Nat)
    (extract : ExtractOutcome) (conversionDate : List Char)
    (timestamp randomSuffix : Nat) (fsObs : FsObs) : PipelineResult :=
  match validateFile file? maxSize with
  | .rejected s c => .validationError s c
  | .passed =>
    .conversion
      (convertWordToPdf file? extract conversionDate timestamp randomSuffix fsObs)

/-! ### Helper lemmas for the orchestrator claims -/

theorem choosePdf_unusable (ext : List Char) (sigOk : Bool)
    (extract : ExtractOutcome)
    (h : extract = .extractFailed ∨
      ∃ t, extract = .extracted t ∧ jsTrim t = []) :
    choosePdf ext sigOk extract = .fallbackDoc := by
  rcases h with rfl | ⟨t, rfl, htrim⟩
  · unfold choosePdf
    split_ifs <;> rfl
  · have hu : extractionUnusable t = true := by
      unfold extractionUnusable
      rw [htrim]
      simp
    unfold choosePdf
    split_ifs <;> simp [hu]

theorem fallbackPlace_texts : ∀ (ls : List (List Char)) (y : Int) (idx : Nat),
    (fallbackPlace y idx ls).map Placement.text = ls := by
  intro ls
  induction ls with
  | nil => intro y idx; rfl
  | cons l rest ih =>
    intro y idx
    simp only [fallbackPlace, List.map_cons]
    rw [ih]

theorem fallbackPlace_positions : ∀ (ls₁ ls₂ : List (List Char)) (y : Int)
    (idx : Nat), ls₁.length = ls₂.length →
    (fallbackPlace y idx ls₁).map (fun p => (p.page, p.x, p.y)) =
    (fallbackPlace y idx ls₂).map (fun p => (p.page, p.x, p.y)) := by
  intro ls₁
  induction ls₁ with
  | nil =>
    intro ls₂ y idx h
    have h2 : ls₂ = [] := List.length_eq_zero.mp h.symm
    rw [h2]
  | cons l rest ih =>
    intro ls₂ y idx h
    cases ls₂ with
    | nil => simp at h
    | cons l₂ rest₂ =>
      simp only [fallbackPlace, List.map_cons]
      congr 1
      exact ih rest₂ _ _ (by simpa using h)

def positions (L : PdfLayout) : List (Nat × Int × Int) :=
  L.placed.map (fun p => (p.page, p.x, p.y))

theorem createFallbackPdf_positions (n cd₁ cd₂ : List Char) :
    positions (createFallbackPdf n cd₁) = positions (createFallbackPdf n cd₂) := by
  unfold positions createFallbackPdf
  exact fallbackPlace_positions _ _ _ _ (by simp [fallbackLines])

/-! ### Claims about validation, fallback and delivery -/

/-- C1: the structural signature check passes exactly when the first four
bytes are one of the three zip magic numbers; and a failed signature
check on a `.docx` upload never aborts the job as a hard error — the job
is delivered with the fallback notice document. -/
theorem claim_c1_signature_check (bytes : List Nat) :
    (validateDocxFile bytes = true ↔
      (bytes.take 4 = [0x50, 0x4B, 0x03, 0x04] ∨
       bytes.take 4 = [0x50, 0x4B, 0x05, 0x06] ∨
       bytes.take 4 = [0x50, 0x4B, 0x07, 0x08])) ∧
    (∀ (f : UploadedFile) (extract : ExtractOutcome)
       (conversionDate : List Char) (timestamp randomSuffix : Nat)
       (fsObs : FsObs),
       f.content = bytes →
       extLower f.originalname = ".docx".data →
       validateDocxFile bytes = false →
       fsObs.writtenExists = true →
       convertWordToPdf (some f) extract conversionDate timestamp
           randomSuffix fsObs =
         .delivered (createFallbackPdf f.originalname conversionDate)
           (generateUniqueFilename f.originalname (some ".pdf".data)
             timestamp randomSuffix)
           "application/pdf".data fsObs.writtenSize) := by
  constructor
  · simp [validateDocxFile, zipSignatures]
  · intro f extract conversionDate timestamp randomSuffix fsObs hct hext hsig hw
    subst hct
    simp [convertWordToPdf, choosePdf, renderPdf, hext, hsig, hw]

theorem claim_c1_signature_check_witness :
    validateDocxFile [0xFF, 0xFF, 0xFF, 0xFF] = false ∧
    extLower "bad.docx".data = ".docx".data ∧
    convertWordToPdf
        (some ⟨"bad.docx".data, "application/msword".data, 4,
          [0xFF, 0xFF, 0xFF, 0xFF], true⟩)
        .extractFailed "now".data 1 2 ⟨true, 100⟩ =
      .delivered (createFallbackPdf "bad.docx".data "now".data)
        (generateUniqueFilename "bad.docx".data (some ".pdf".data) 1 2)
        "application/pdf".data 100 :=
  ⟨by decide, by decide,
    (claim_c1_signature_check [0xFF, 0xFF, 0xFF, 0xFF]).2
      ⟨"bad.docx".data, "application/msword".data, 4,
        [0xFF, 0xFF, 0xFF, 0xFF], true⟩
      .extractFailed "now".data 1 2 ⟨true, 100⟩
      rfl (by decide) (by decide) rfl⟩

/-- C2: when extraction fails or yields whitespace-only text, the job is
still delivered (no error result) and the output is the fallback notice
document, whose drawn lines include the title, the original filename, the
timestamp line and the enumerated causes/remediation lines. -/
theorem claim_c2_blank_extraction_falls_back (f : UploadedFile)
    (extract : ExtractOutcome) (conversionDate : List Char)
    (timestamp randomSuffix : Nat) (fsObs : FsObs)
    (hunusable : extract = .extractFailed ∨
      ∃ t, extract = .extracted t ∧ jsTrim t = [])
    (hw : fsObs.writtenExists = true) :
    convertWordToPdf (some f) extract conversionDate timestamp
        randomSuffix fsObs =
      .delivered (createFallbackPdf f.originalname conversionDate)
        (generateUniqueFilename f.originalname (some ".pdf".data)
          timestamp randomSuffix)
        "application/pdf".data fsObs.writtenSize ∧
    ("Word to PDF Conversion Notice".data ∈
      (createFallbackPdf f.originalname conversionDate).placed.map
        Placement.text ∧
     ("Original file: ".data ++ f.originalname) ∈
      (createFallbackPdf f.originalname conversionDate).placed.map
        Placement.text ∧
     ("Conversion date: ".data ++ conversionDate) ∈
      (createFallbackPdf f.originalname conversionDate).placed.map
        Placement.text ∧
     "• File corruption or damage".data ∈
      (createFallbackPdf f.originalname conversionDate).placed.map
        Placement.text ∧
     "1. Opening the document in Microsoft Word".data ∈
      (createFallbackPdf f.originalname conversionDate).placed.map
        Placement.text) := by
  constructor
  · simp [convertWordToPdf, choosePdf_unusable _ _ _ hunusable, renderPdf, hw]
  · unfold createFallbackPdf
    simp only [fallbackPlace_texts]
    refine ⟨?_, ?_, ?_, ?_, ?_⟩ <;> simp [fallbackLines]

theorem claim_c2_blank_extraction_falls_back_witness :
    jsTrim "   ".data = [] ∧
    convertWordToPdf
        (some ⟨"a.docx".data, "application/msword".data, 3,
          [0x50, 0x4B, 0x03, 0x04], true⟩)
        (.extracted "   ".data) "now".data 1 2 ⟨true, 55⟩ =
      .delivered (createFallbackPdf "a.docx".data "now".data)
        (generateUniqueFilename "a.docx".data (some ".pdf".data) 1 2)
        "application/pdf".data 55 :=
  ⟨by decide,
    (claim_c2_blank_extraction_falls_back
      ⟨"a.docx".data, "application/msword".data, 3,
        [0x50, 0x4B, 0x03, 0x04], true⟩
      (.extracted "   ".data) "now".data 1 2 ⟨true, 55⟩
      (Or.inr ⟨"   ".data, rfl, by decide⟩) rfl).1⟩

/-- C3 counterexample: a zero-byte upload whose declared extension is not
allowed is rejected with INVALID_FILE_TYPE, not EMPTY_FILE — the
extension check runs before the emptiness check, so the error code is not
EMPTY_FILE "regardless of extension and MIME type". -/
theorem claim_c3_counterexample :
    validateFile
        (some ⟨"a.txt".data, "application/msword".data, 0, [], true⟩)
        defaultMaxFileSize =
      .rejected 400 "INVALID_FILE_TYPE".data ∧
    "INVALID_FILE_TYPE".data ≠ "EMPTY_FILE".data := by
  exact ⟨by decide, by decide⟩

/-- C3 amended: a zero-byte upload with an allowed extension and an
allowed MIME type is rejected with the EMPTY_FILE code, and the
conversion controller never runs. -/
theorem claim_c3_empty_file (f : UploadedFile) (maxSize : Nat)
    (extract : ExtractOutcome) (conversionDate : List Char)
    (timestamp randomSuffix : Nat) (fsObs : FsObs)
    (hext : extLower f.originalname ∈ allowedExtensions)
    (hmime : f.mimetype ∈ allowedMimeTypes)
    (hexists : f.existsOnDisk = true)
    (hsize : f.size = 0) (hcontent : f.content = []) :
    validateFile (some f) maxSize = .rejected 400 "EMPTY_FILE".data ∧
    fullPipeline (some f) maxSize extract conversionDate timestamp
        randomSuffix fsObs =
      .validationError 400 "EMPTY_FILE".data := by
  have hv : validateFile (some f) maxSize =
      .rejected 400 "EMPTY_FILE".data := by
    simp [validateFile, hext, hmime, hexists, hsize, hcontent]
  exact ⟨hv, by simp [fullPipeline, hv]⟩

theorem claim_c3_empty_file_witness :
    extLower "a.docx".data ∈ allowedExtensions ∧
    validateFile
        (some ⟨"a.docx".data, "application/msword".data, 0, [], true⟩)
        defaultMaxFileSize =
      .rejected 400 "EMPTY_FILE".data :=
  ⟨by decide,
    (claim_c3_empty_file
      ⟨"a.docx".data, "application/msword".data, 0, [], true⟩
      defaultMaxFileSize .extractFailed "now".data 1 2 ⟨true, 0⟩
      (by decide) (by decide) rfl rfl rfl).1⟩

/-- C4 counterexample: when the filesystem reports the written artifact
as existing but zero-byte, the job is still delivered, with content
length 0 — the code never checks the written artifact for emptiness. -/
theorem claim_c4_counterexample :
    convertWordToPdf
        (some ⟨"a.docx".data, "application/msword".data, 4,
          [0x50, 0x4B, 0x03, 0x04], true⟩)
        (.extracted "hello".data) "now".data 1 2 ⟨true, 0⟩ =
      .delivered (createPdfFromText "hello".data)
        (generateUniqueFilename "a.docx".data (some ".pdf".data) 1 2)
        "application/pdf".data 0 := by
  decide

/-- C4 amended: after the write the assembler checks only that the
artifact exists: a missing artifact is a fatal 500, while an existing
artifact is delivered whatever its size — an empty one with content
length 0. -/
theorem claim_c4_exists_check_only (f : UploadedFile)
    (extract : ExtractOutcome) (conversionDate : List Char)
    (timestamp randomSuffix : Nat) :
    (∀ sz : Nat, convertWordToPdf (some f) extract conversionDate
        timestamp randomSuffix ⟨false, sz⟩ =
      .httpError 500 "PDF file was not generated successfully".data) ∧
    (∀ sz : Nat, convertWordToPdf (some f) extract conversionDate
        timestamp randomSuffix ⟨true, sz⟩ =
      .delivered
        (renderPdf (choosePdf (extLower f.originalname)
            (validateDocxFile f.content) extract)
          f.originalname conversionDate)
        (generateUniqueFilename f.originalname (some ".pdf".data)
          timestamp randomSuffix)
        "application/pdf".data sz) := by
  constructor <;> intro sz <;> simp [convertWordToPdf]

/-- C5 counterexample: for original name `doc.docx` (run-dependent inputs
timestamp 5, random suffix 7) the delivered filename is `doc_5_7.pdf`,
which differs from `<original-basename>.pdf` = `doc.pdf`. -/
theorem claim_c5_counterexample :
    convertWordToPdf
        (some ⟨"doc.docx".data, "application/msword".data, 4,
          [0x50, 0x4B, 0x03, 0x04], true⟩)
        (.extracted "hi".data) "now".data 5 7 ⟨true, 9⟩ =
      .delivered (createPdfFromText "hi".data) "doc_5_7.pdf".data
        "application/pdf".data 9 ∧
    baseNameNoExt "doc.docx".data ++ ".pdf".data = "doc.pdf".data ∧
    "doc_5_7.pdf".data ≠ "doc.pdf".data := by
  exact ⟨by decide, by decide, by decide⟩

/-- C5 amended: the delivered filename is the sanitized original basename
(characters outside `[a-zA-Z0-9_-]` replaced by `_`) followed by
`_<timestamp>_<randomSuffix>` and the `.pdf` extension. -/
theorem claim_c5_unique_filename (f : UploadedFile)
    (extract : ExtractOutcome) (conversionDate : List Char)
    (timestamp randomSuffix sz : Nat) :
    convertWordToPdf (some f) extract conversionDate timestamp
        randomSuffix ⟨true, sz⟩ =
      .delivered
        (renderPdf (choosePdf (extLower f.originalname)
            (validateDocxFile f.content) extract)
          f.originalname conversionDate)
        (cleanBaseName (baseNameNoExt f.originalname) ++ ['_']
          ++ natDigits timestamp ++ ['_'] ++ natDigits randomSuffix
          ++ ".pdf".data)
        "application/pdf".data sz := by
  simp [convertWordToPdf, generateUniqueFilename]

/-- C8: a sweep run deletes a file exactly when its last-modified age
exceeds the configured maximum age; every younger file survives the sweep
with name, mtime and contents untouched, and the sweep introduces
nothing. -/
theorem claim_c8_sweep_retention (nowMs : Int) (maxAgeHours : Nat)
    (dir : List FileEntry) (f : FileEntry) (hf : f ∈ dir) :
    (f ∈ cleanupOldFiles nowMs maxAgeHours dir ↔
      ¬ (nowMs - f.mtimeMs > (maxAgeHours : Int) * 60 * 60 * 1000)) ∧
    (∀ g ∈ cleanupOldFiles nowMs maxAgeHours dir, g ∈ dir) := by
  constructor
  · unfold cleanupOldFiles
    rw [List.mem_filter]
    simp [hf]
  · intro g hg
    exact (List.mem_filter.mp hg).1

theorem claim_c8_sweep_retention_witness :
    (⟨"young.pdf".data, 90000000, [1]⟩ : FileEntry) ∈
        [(⟨"young.pdf".data, 90000000, [1]⟩ : FileEntry)] ∧
    ((⟨"young.pdf".data, 90000000, [1]⟩ : FileEntry) ∈
        cleanupOldFiles 100000000 24
          [(⟨"young.pdf".data, 90000000, [1]⟩ : FileEntry)] ↔
      ¬ ((100000000 : Int) - 90000000 > (24 : Int) * 60 * 60 * 1000)) :=
  ⟨by decide,
    (claim_c8_sweep_retention 100000000 24
      [⟨"young.pdf".data, 90000000, [1]⟩]
      ⟨"young.pdf".data, 90000000, [1]⟩ (by decide)).1⟩

/-- C9: two runs of the pipeline on the same stored upload with the same
(deterministic) extraction result deliver PDFs with identical page count
and identical placement positions (page, x, y of every drawn line), for
any run-dependent timestamps and filename-uniqueness inputs. -/
theorem claim_c9_deterministic_layout (f : UploadedFile)
    (extract : ExtractOutcome) (cd₁ cd₂ : List Char)
    (ts₁ rs₁ ts₂ rs₂ sz₁ sz₂ : Nat) :
    ∃ L₁ L₂ : PdfLayout,
      convertWordToPdf (some f) extract cd₁ ts₁ rs₁ ⟨true, sz₁⟩ =
        .delivered L₁
          (generateUniqueFilename f.originalname (some ".pdf".data) ts₁ rs₁)
          "application/pdf".data sz₁ ∧
      convertWordToPdf (some f) extract cd₂ ts₂ rs₂ ⟨true, sz₂⟩ =
        .delivered L₂
          (generateUniqueFilename f.originalname (some ".pdf".data) ts₂ rs₂)
          "application/pdf".data sz₂ ∧
      L₁.numPages = L₂.numPages ∧ positions L₁ = positions L₂ := by
  refine ⟨renderPdf (choosePdf (extLower f.originalname)
      (validateDocxFile f.content) extract) f.originalname cd₁,
    renderPdf (choosePdf (extLower f.originalname)
      (validateDocxFile f.content) extract) f.originalname cd₂,
    by simp [convertWordToPdf], by simp [convertWordToPdf], ?_, ?_⟩
  · cases choosePdf (extLower f.originalname)
      (validateDocxFile f.content) extract with
    | fallbackDoc => rfl
    | textDoc t => rfl
  · cases choosePdf (extLower f.originalname)
      (validateDocxFile f.content) extract with
    | fallbackDoc => exact createFallbackPdf_positions f.originalname cd₁ cd₂
    | textDoc t => rfl

end WordToPdf
